import Mathlib

/-!
Shallow embedding of the todo-app reducer/selector core of the
`idomatic-redux` repository.

The authoritative code lives in the repository README (the normalized
final revision of the reducers) and in the action-creator and
local-storage modules:

* `todo`   — per-item reducer (README, todo.js snippet);
* `byId`   — lookup-table reducer (README, todos.js snippet);
* `allIds` — id-order reducer (README, todos.js snippet);
* `todos`  — `combineReducers({byId, allIds})`;
* `getAllTodos`, `getVisibleTodos` — selector (README snippet);
* `loadState`, `saveState` — persistence bridge (localstorage module).

JavaScript objects are embedded as association lists whose values are
`Option Item` (a key can genuinely be present with value `undefined`),
`state[k]` as a lookup that yields `none` both for a missing key and for
an `undefined` value, and the spread update as `setEntry` (replace the
first occurrence in place, else append — JS key-order semantics).
A JS runtime exception (property access on `undefined`, `throw new
Error`) is embedded as `Except.error` carrying a `JsError`.
-/

namespace IdomaticRedux

/-- A to-do record with fields `id`, `text`, `completed`. -/
structure Item where
  id : String
  text : String
  completed : Bool
deriving DecidableEq, Repr

/-- The actions the reducers inspect.  `ADD_TODO` carries `id` and
`text`, `TOGGLE_TODO` carries `id`; `other` stands for every other
`type` value (e.g. `SET_VISIBILITY_FILTER`), which all reducers send to
their `default` branch. -/
inductive Action where
  | add_todo (id text : String)
  | toggle_todo (id : String)
  | other
deriving DecidableEq, Repr

/-- Runtime failures of the embedded JS code: reading a property of
`undefined`, or the selector's `Unknown filter` throw (carrying the
offending filter string). -/
inductive JsError where
  | typeError (property : String)
  | unknownFilter (filter : String)
deriving DecidableEq, Repr

/-- The `byId` slice: a JS object from id strings to items.  A value of
`none` embeds a key whose stored value is `undefined`. -/
abbrev ById := List (String × Option Item)

/-- The JS property read `state[k]`: `none` for a missing key and for a
key stored with value `undefined`. -/
def getValue : ById → String → Option Item
  | [], _ => none
  | p :: rest, k => if p.1 = k then p.2 else getValue rest k

/-- The JS spread update that writes `v` under key `k`: replace the
first entry with key `k` in place, or append a new entry at the end. -/
def setEntry : ById → String → Option Item → ById
  | [], k, v => [(k, v)]
  | p :: rest, k, v =>
      if p.1 = k then (k, v) :: rest else p :: setEntry rest k v

/-- The per-item reducer `todo(state, action)`.  `state` may be
`undefined` (`none`).  On `TOGGLE_TODO` the code reads `state.id`, which
throws a TypeError when `state` is `undefined`. -/
def todo (state : Option Item) (action : Action) : Except JsError (Option Item) :=
  match action with
  | .add_todo i t => .ok (some ⟨i, t, false⟩)
  | .toggle_todo i =>
      match state with
      | none => .error (.typeError "id")
      | some s =>
          if s.id ≠ i then .ok (some s)
          else .ok (some { s with completed := !s.completed })
  | .other => .ok state

/-- The lookup-table reducer `byId(state, action)`: on `ADD_TODO` and
`TOGGLE_TODO` it writes `todo(state[action.id], action)` back under
`action.id`; any error of the delegate propagates (the JS exception
aborts the dispatch). -/
def byId (state : ById) (action : Action) : Except JsError ById :=
  match action with
  | .add_todo i _ | .toggle_todo i =>
      (todo (getValue state i) action).map (setEntry state i)
  | .other => .ok state

/-- The id-order reducer `allIds(state, action)`: appends `action.id`
on `ADD_TODO`, otherwise returns the state unchanged. -/
def allIds (state : List String) (action : Action) : List String :=
  match action with
  | .add_todo i _ => state ++ [i]
  | _ => state

/-- The combined collection state of `byId` and `allIds`. -/
structure TodosState where
  byId : ById
  allIds : List String
deriving DecidableEq, Repr

/-- The collection reducer, combining `byId` and `allIds`: each slice
reducer runs on its own slice with the same action; an exception in
`byId` aborts the whole dispatch. -/
def todos (state : TodosState) (action : Action) : Except JsError TodosState :=
  (byId state.byId action).map (fun b => ⟨b, allIds state.allIds action⟩)

/-- `byId`'s default initial slice (the empty object) combined with
`allIds`'s default initial slice (the empty array). -/
def emptyTodos : TodosState := ⟨[], []⟩

/-- Dispatch a list of actions in order, starting from `state`; a
thrown exception aborts the run (the store never sees a new state for
that dispatch or any later one). -/
def runActions (state : TodosState) : List Action → Except JsError TodosState
  | [] => .ok state
  | a :: rest => (todos state a).bind (fun s => runActions s rest)

/-- `getAllTodos(state)`: map `state.allIds` through `state.byId`.
Ids missing from `byId` produce `undefined` (`none`) elements. -/
def getAllTodos (state : TodosState) : List (Option Item) :=
  state.allIds.map (fun i => getValue state.byId i)

/-- The JS array filter whose callback reads `t.completed` of each
element: it throws a TypeError at the first `undefined` element. -/
def jsCompletedFilter (p : Bool → Bool) : List (Option Item) → Except JsError (List (Option Item))
  | [] => .ok []
  | none :: _ => .error (.typeError "completed")
  | some t :: rest =>
      (jsCompletedFilter p rest).map
        (fun r => if p t.completed then some t :: r else r)

/-- The selector `getVisibleTodos(state, filter)`; the `default` branch
throws an `Unknown filter` error. -/
def getVisibleTodos (state : TodosState) (filter : String) : Except JsError (List (Option Item)) :=
  let allTodos := getAllTodos state
  match filter with
  | "all" => .ok allTodos
  | "completed" => jsCompletedFilter (fun c => c) allTodos
  | "active" => jsCompletedFilter (fun c => !c) allTodos
  | _ => .error (.unknownFilter filter)

/-- The fragment the persistence bridge stores: an object holding the
`todos` slice. -/
structure PersistedFragment where
  todos : TodosState
deriving DecidableEq, Repr

/-- `loadState()`: the environment is passed in as the outcome of the
storage read (which may itself throw) and the behaviour of `JSON.parse`
on the stored string.  The `try`/`catch` returns `undefined` on any
throw, and `undefined` when the key is absent. -/
def loadState (getItemResult : Except JsError (Option String))
    (parse : String → Except JsError PersistedFragment) :
    Except JsError (Option PersistedFragment) :=
  match getItemResult with
  | .error _ => .ok none
  | .ok none => .ok none
  | .ok (some s) =>
      match parse s with
      | .error _ => .ok none
      | .ok v => .ok (some v)

/-- `saveState(state)`: the environment is passed in as the behaviour
of `JSON.stringify` and of the storage write.  The `try`/`catch`
ignores write (and serialization) errors. -/
def saveState (stringify : PersistedFragment → Except JsError String)
    (setItem : String → Except JsError Unit)
    (state : PersistedFragment) : Except JsError Unit :=
  match stringify state with
  | .error _ => .ok ()
  | .ok s =>
      match setItem s with
      | .error _ => .ok ()
      | .ok _ => .ok ()

/-- Keys of a `byId` object, in JS enumeration order. -/
def keys (m : ById) : List String := m.map Prod.fst

/-- The correspondence invariant between the two slices: every id in
`allIds` has a defined entry in `byId`, every key of `byId` occurs in
`allIds`, and `byId` has no duplicate keys. -/
def CollectionInv (s : TodosState) : Prop :=
  (∀ i ∈ s.allIds, (getValue s.byId i).isSome) ∧
  (∀ i ∈ keys s.byId, i ∈ s.allIds) ∧
  (keys s.byId).Nodup

/-- Whether an action is one of the two collection actions. -/
def Action.isCollection : Action → Bool
  | .add_todo _ _ => true
  | .toggle_todo _ => true
  | .other => false

-- Basic lemmas about the association-list embedding of JS objects.

@[simp]
theorem keys_nil : keys [] = [] := rfl

@[simp]
theorem keys_cons (p : String × Option Item) (m : ById) :
    keys (p :: m) = p.1 :: keys m := rfl

theorem getValue_setEntry_same (m : ById) (k : String) (v : Option Item) :
    getValue (setEntry m k v) k = v := by
  induction m with
  | nil => simp [setEntry, getValue]
  | cons p rest ih =>
      by_cases h : p.1 = k
      · simp [setEntry, h, getValue]
      · simp [setEntry, h, getValue, ih]

theorem getValue_setEntry_other (m : ById) (k k' : String) (v : Option Item)
    (h : k' ≠ k) : getValue (setEntry m k v) k' = getValue m k' := by
  have hkk : k ≠ k' := Ne.symm h
  induction m with
  | nil => simp [setEntry, getValue, hkk]
  | cons p rest ih =>
      by_cases hp : p.1 = k
      · have hp' : p.1 ≠ k' := by rw [hp]; exact hkk
        simp [setEntry, hp, getValue, hp', hkk]
      · simp [setEntry, hp, getValue, ih]

theorem keys_setEntry_mem (m : ById) (k : String) (v : Option Item)
    (h : k ∈ keys m) : keys (setEntry m k v) = keys m := by
  induction m with
  | nil => simp at h
  | cons p rest ih =>
      by_cases hp : p.1 = k
      · simp [setEntry, hp]
      · have hk : k ∈ keys rest := by
          rcases (by simpa using h : k = p.1 ∨ k ∈ keys rest) with hh | hh
          · exact absurd hh.symm hp
          · exact hh
        simp [setEntry, hp, ih hk]

theorem keys_setEntry_not_mem (m : ById) (k : String) (v : Option Item)
    (h : k ∉ keys m) : keys (setEntry m k v) = keys m ++ [k] := by
  induction m with
  | nil => simp [setEntry]
  | cons p rest ih =>
      have hp : p.1 ≠ k := fun hh => h (by simp [hh])
      have hk : k ∉ keys rest := fun hh => h (by simp [hh])
      simp [setEntry, hp, ih hk]

theorem mem_keys_of_getValue_isSome (m : ById) (k : String)
    (h : (getValue m k).isSome) : k ∈ keys m := by
  induction m with
  | nil => simp [getValue] at h
  | cons p rest ih =>
      by_cases hp : p.1 = k
      · simp [hp]
      · simp only [getValue, if_neg hp] at h
        simpa using Or.inr (ih h)

theorem item_eta_completed (item : Item) :
    ({ item with completed := !(!item.completed) } : Item) = item := by
  cases item
  simp

/-- C3: the item reducer contract.  On `ADD_TODO` it ignores the
previous item and returns a fresh item with the action's id and text and
`completed = false`; on `TOGGLE_TODO` it returns the previous item
unchanged when the ids differ and otherwise a copy with `completed`
inverted (id and text unchanged); on any other action it returns the
previous item unchanged. -/
theorem C3_todo_contract :
    (∀ (prev : Option Item) (i t : String),
        todo prev (Action.add_todo i t) = Except.ok (some ⟨i, t, false⟩)) ∧
    (∀ (item : Item) (i : String), item.id ≠ i →
        todo (some item) (Action.toggle_todo i) = Except.ok (some item)) ∧
    (∀ (item : Item) (i : String), item.id = i →
        todo (some item) (Action.toggle_todo i) =
          Except.ok (some { item with completed := !item.completed })) ∧
    (∀ (prev : Option Item), todo prev Action.other = Except.ok prev) := by
  refine ⟨fun prev i t => rfl, fun item i h => by simp [todo, h],
    fun item i h => by simp [todo, h], fun prev => rfl⟩

/-- Witness for C3 at concrete inputs. -/
theorem C3_todo_contract_witness :
    todo (some ⟨"a", "milk", false⟩) (Action.toggle_todo "b") =
      Except.ok (some ⟨"a", "milk", false⟩) :=
  C3_todo_contract.2.1 ⟨"a", "milk", false⟩ "b" (by decide)

/-- C9: the persistence bridge never raises toward the core:
`loadState` yields "no persisted state" when the stored content is
absent, when the storage read throws, and when parsing the stored
content throws; it returns `Except.ok` on every environment; and
`saveState` swallows every serialization or storage failure. -/
theorem C9_persistence_never_raises :
    (∀ parse, loadState (Except.ok none) parse = Except.ok none) ∧
    (∀ e parse, loadState (Except.error e) parse = Except.ok none) ∧
    (∀ s e parse, parse s = Except.error e →
        loadState (Except.ok (some s)) parse = Except.ok none) ∧
    (∀ g parse, ∃ r, loadState g parse = Except.ok r) ∧
    (∀ stringify setItem state, saveState stringify setItem state = Except.ok ()) := by
  refine ⟨fun parse => rfl, fun e parse => rfl,
    fun s e parse h => by simp [loadState, h], ?_, ?_⟩
  · intro g parse
    match g with
    | .error e => exact ⟨none, rfl⟩
    | .ok none => exact ⟨none, rfl⟩
    | .ok (some s) =>
        match hp : parse s with
        | .error e => exact ⟨none, by simp [loadState, hp]⟩
        | .ok v => exact ⟨some v, by simp [loadState, hp]⟩
  · intro stringify setItem state
    cases hs : stringify state with
    | error e => simp [saveState, hs]
    | ok s => cases hw : setItem s <;> simp [saveState, hs, hw]

/-- Witness for C9 at a concrete environment whose parse always
throws. -/
theorem C9_persistence_never_raises_witness :
    loadState (Except.ok (some "garbage"))
      (fun _ => Except.error (JsError.typeError "parse")) = Except.ok none :=
  C9_persistence_never_raises.2.2.1 "garbage" (JsError.typeError "parse") _ rfl

/-- C10: an `ADD_TODO` whose id is already present still appends the id
to `allIds` (length grows by one, producing a duplicate) and overwrites
the `byId` entry with a fresh item whose `completed` flag is `false`. -/
theorem C10_duplicate_add (s : TodosState) (i t : String) (h : i ∈ s.allIds) :
    ∃ s2, todos s (Action.add_todo i t) = Except.ok s2 ∧
      s2.allIds = s.allIds ++ [i] ∧
      s2.allIds.length = s.allIds.length + 1 ∧
      ¬ s2.allIds.Nodup ∧
      getValue s2.byId i = some ⟨i, t, false⟩ := by
  refine ⟨⟨setEntry s.byId i (some ⟨i, t, false⟩), s.allIds ++ [i]⟩,
    by simp [todos, byId, todo, allIds, Except.map], rfl, by simp, ?_,
    getValue_setEntry_same _ _ _⟩
  intro hnd
  rcases List.nodup_append.mp hnd with ⟨-, -, hdisj⟩
  exact hdisj h (by simp)

/-- Witness for C10 at a concrete state already containing the id. -/
theorem C10_duplicate_add_witness :
    ∃ s2, todos ⟨[("a", some ⟨"a", "milk", true⟩)], ["a"]⟩
        (Action.add_todo "a" "again") = Except.ok s2 ∧
      s2.allIds = ["a"] ++ ["a"] ∧
      s2.allIds.length = ["a"].length + 1 ∧
      ¬ s2.allIds.Nodup ∧
      getValue s2.byId "a" = some ⟨"a", "again", false⟩ :=
  C10_duplicate_add ⟨[("a", some ⟨"a", "milk", true⟩)], ["a"]⟩ "a" "again"
    (by decide)

/-- C1 counterexample: toggling an id that is not a key of `byId` does
not leave the collection state unchanged — the dispatch throws a
TypeError instead of returning the previous state. -/
theorem C1_toggle_missing_counterexample :
    todos emptyTodos (Action.toggle_todo "a") ≠ Except.ok emptyTodos := by
  intro h
  simp [todos, emptyTodos, byId, todo, getValue, Except.map] at h

/-- C1 amended: for every state and every `TOGGLE_TODO` whose id has no
defined entry in `byId`, the collection reducer throws a TypeError (the
item reducer reads `.id` of `undefined`); no successor state is
produced, so the store keeps its old state only because the dispatch
fails. -/
theorem C1_toggle_missing_id_throws (s : TodosState) (i : String)
    (h : getValue s.byId i = none) :
    todos s (Action.toggle_todo i) = Except.error (JsError.typeError "id") := by
  simp [todos, byId, todo, h, Except.map]

/-- Witness for the amended C1 at the empty collection state. -/
theorem C1_toggle_missing_id_throws_witness :
    todos emptyTodos (Action.toggle_todo "a") =
      Except.error (JsError.typeError "id") :=
  C1_toggle_missing_id_throws emptyTodos "a" rfl

/-- C8: toggling an item present in `byId` twice with that item's id
succeeds both times and restores the item exactly (in particular its
`completed` flag), leaving `allIds` untouched. -/
theorem C8_toggle_involution (s : TodosState) (item : Item)
    (h : getValue s.byId item.id = some item) :
    ∃ s1 s2,
      todos s (Action.toggle_todo item.id) = Except.ok s1 ∧
      todos s1 (Action.toggle_todo item.id) = Except.ok s2 ∧
      getValue s2.byId item.id = some item ∧
      s2.allIds = s.allIds := by
  refine ⟨⟨setEntry s.byId item.id (some { item with completed := !item.completed }),
      s.allIds⟩, ⟨setEntry (setEntry s.byId item.id
        (some { item with completed := !item.completed })) item.id (some item),
      s.allIds⟩, ?_, ?_, getValue_setEntry_same _ _ _, rfl⟩
  · simp [todos, byId, todo, h, Except.map, allIds]
  · have h1 : getValue (setEntry s.byId item.id
        (some { item with completed := !item.completed })) item.id =
        some { item with completed := !item.completed } :=
      getValue_setEntry_same _ _ _
    simp [todos, byId, todo, h1, Except.map, allIds, item_eta_completed]

/-- Witness for C8 at a concrete one-item state. -/
theorem C8_toggle_involution_witness :
    ∃ s1 s2,
      todos ⟨[("a", some ⟨"a", "milk", false⟩)], ["a"]⟩
        (Action.toggle_todo "a") = Except.ok s1 ∧
      todos s1 (Action.toggle_todo "a") = Except.ok s2 ∧
      getValue s2.byId "a" = some ⟨"a", "milk", false⟩ ∧
      s2.allIds = ["a"] :=
  C8_toggle_involution ⟨[("a", some ⟨"a", "milk", false⟩)], ["a"]⟩
    ⟨"a", "milk", false⟩ (by decide)

theorem jsCompletedFilter_map_some (p : Bool → Bool) (l : List Item) :
    jsCompletedFilter p (l.map some) =
      Except.ok ((l.filter (fun t => p t.completed)).map some) := by
  induction l with
  | nil => rfl
  | cons t rest ih =>
      by_cases hp : p t.completed <;>
        simp [jsCompletedFilter, ih, Except.map, List.filter, hp]

theorem map_getValue_exists_items (m : ById) (l : List String)
    (h : ∀ i ∈ l, (getValue m i).isSome) :
    ∃ items : List Item, l.map (fun i => getValue m i) = items.map some := by
  induction l with
  | nil => exact ⟨[], rfl⟩
  | cons i rest ih =>
      obtain ⟨a, ha⟩ := Option.isSome_iff_exists.mp (h i (by simp))
      obtain ⟨items, hitems⟩ := ih (fun j hj => h j (by simp [hj]))
      exact ⟨a :: items, by simp [ha, hitems]⟩

/-- C5: on a state whose `allIds` entries all have a `byId` entry,
`getVisibleTodos` with filter `all` succeeds and returns exactly the
items obtained by mapping `allIds` through `byId`, in that order, with
length equal to the total item count. -/
theorem C5_all_preserves_order (s : TodosState)
    (h : ∀ i ∈ s.allIds, (getValue s.byId i).isSome) :
    ∃ items : List Item,
      getVisibleTodos s "all" = Except.ok (items.map some) ∧
      items.map some = s.allIds.map (fun i => getValue s.byId i) ∧
      items.length = s.allIds.length := by
  obtain ⟨items, hitems⟩ := map_getValue_exists_items s.byId s.allIds h
  refine ⟨items, ?_, hitems.symm, ?_⟩
  · show Except.ok (getAllTodos s) = _
    rw [show getAllTodos s = s.allIds.map (fun i => getValue s.byId i) from rfl,
      hitems]
  · have := congrArg List.length hitems
    simpa using this.symm

/-- Witness for C5 at a concrete two-item state. -/
theorem C5_all_preserves_order_witness :
    ∃ items : List Item,
      getVisibleTodos
        ⟨[("a", some ⟨"a", "milk", true⟩), ("b", some ⟨"b", "dog", false⟩)],
          ["a", "b"]⟩ "all" = Except.ok (items.map some) ∧
      items.map some =
        (["a", "b"] : List String).map (fun i =>
          getValue [("a", some ⟨"a", "milk", true⟩),
            ("b", some ⟨"b", "dog", false⟩)] i) ∧
      items.length = (["a", "b"] : List String).length :=
  C5_all_preserves_order
    ⟨[("a", some ⟨"a", "milk", true⟩), ("b", some ⟨"b", "dog", false⟩)],
      ["a", "b"]⟩ (by decide)

/-- C6: on a state whose `allIds` entries all have a `byId` entry, the
`completed` filter returns exactly the completed items, the `active`
filter exactly the non-completed ones, the two results are disjoint,
and they are the complementary filters of the `all` result (so merging
them back in the original order reconstructs it). -/
theorem C6_partition (s : TodosState)
    (h : ∀ i ∈ s.allIds, (getValue s.byId i).isSome) :
    ∃ items completedItems activeItems : List Item,
      getVisibleTodos s "all" = Except.ok (items.map some) ∧
      getVisibleTodos s "completed" = Except.ok (completedItems.map some) ∧
      getVisibleTodos s "active" = Except.ok (activeItems.map some) ∧
      completedItems = items.filter (fun t => t.completed) ∧
      activeItems = items.filter (fun t => !t.completed) ∧
      (∀ t ∈ completedItems, t.completed = true) ∧
      (∀ t ∈ activeItems, t.completed = false) ∧
      (∀ t, t ∈ completedItems → t ∈ activeItems → False) ∧
      (completedItems ++ activeItems).Perm items := by
  obtain ⟨items, hitems⟩ := map_getValue_exists_items s.byId s.allIds h
  have hall : getAllTodos s = items.map some := hitems
  refine ⟨items, items.filter (fun t => t.completed),
    items.filter (fun t => !t.completed), ?_, ?_, ?_, rfl, rfl, ?_, ?_, ?_, ?_⟩
  · show Except.ok (getAllTodos s) = _
    rw [hall]
  · show jsCompletedFilter (fun c => c) (getAllTodos s) = _
    rw [hall, jsCompletedFilter_map_some]
  · show jsCompletedFilter (fun c => !c) (getAllTodos s) = _
    rw [hall, jsCompletedFilter_map_some]
  · intro t ht
    simpa using (List.mem_filter.mp ht).2
  · intro t ht
    simpa using (List.mem_filter.mp ht).2
  · intro t htc hta
    have h1 : t.completed = true := by simpa using (List.mem_filter.mp htc).2
    have h2 : t.completed = false := by simpa using (List.mem_filter.mp hta).2
    simp [h1] at h2
  · exact List.filter_append_perm _ items

/-- Witness for C6 at a concrete two-item state. -/
theorem C6_partition_witness :
    ∃ items completedItems activeItems : List Item,
      getVisibleTodos
        ⟨[("a", some ⟨"a", "milk", true⟩), ("b", some ⟨"b", "dog", false⟩)],
          ["a", "b"]⟩ "all" = Except.ok (items.map some) ∧
      getVisibleTodos
        ⟨[("a", some ⟨"a", "milk", true⟩), ("b", some ⟨"b", "dog", false⟩)],
          ["a", "b"]⟩ "completed" = Except.ok (completedItems.map some) ∧
      getVisibleTodos
        ⟨[("a", some ⟨"a", "milk", true⟩), ("b", some ⟨"b", "dog", false⟩)],
          ["a", "b"]⟩ "active" = Except.ok (activeItems.map some) ∧
      completedItems = items.filter (fun t => t.completed) ∧
      activeItems = items.filter (fun t => !t.completed) ∧
      (∀ t ∈ completedItems, t.completed = true) ∧
      (∀ t ∈ activeItems, t.completed = false) ∧
      (∀ t, t ∈ completedItems → t ∈ activeItems → False) ∧
      (completedItems ++ activeItems).Perm items :=
  C6_partition
    ⟨[("a", some ⟨"a", "milk", true⟩), ("b", some ⟨"b", "dog", false⟩)],
      ["a", "b"]⟩ (by decide)

/-- C7 counterexample: `getVisibleTodos` can fail on one of the three
enumerated filter values — on a state with an id in `allIds` but no
`byId` entry, the `completed` filter throws a TypeError, refuting the
claim that the selector never fails for the enumerated values on every
collection state. -/
theorem C7_enumerated_can_fail_counterexample :
    getVisibleTodos ⟨[], ["x"]⟩ "completed" =
      Except.error (JsError.typeError "completed") := rfl

/-- C7 amended: on every collection state, every filter value outside
the enumeration fails with an `UnknownFilter` error carrying the
offending value; and the three enumerated values never fail on states
whose `allIds` entries all have a `byId` entry. -/
theorem C7_unknown_filter (s : TodosState) :
    (∀ f, f ≠ "all" → f ≠ "active" → f ≠ "completed" →
        getVisibleTodos s f = Except.error (JsError.unknownFilter f)) ∧
    ((∀ i ∈ s.allIds, (getValue s.byId i).isSome) →
      ∀ f, f = "all" ∨ f = "active" ∨ f = "completed" →
        ∃ l, getVisibleTodos s f = Except.ok l) := by
  constructor
  · intro f h1 h2 h3
    unfold getVisibleTodos
    split
    · exact absurd rfl h1
    · exact absurd rfl h3
    · exact absurd rfl h2
    · rfl
  · intro h f hf
    obtain ⟨items, hitems⟩ := map_getValue_exists_items s.byId s.allIds h
    have hall : getAllTodos s = items.map some := hitems
    rcases hf with hf | hf | hf <;> subst hf
    · exact ⟨items.map some, by show Except.ok (getAllTodos s) = _; rw [hall]⟩
    · exact ⟨(items.filter (fun t => !t.completed)).map some, by
        show jsCompletedFilter (fun c => !c) (getAllTodos s) = _
        rw [hall, jsCompletedFilter_map_some]⟩
    · exact ⟨(items.filter (fun t => t.completed)).map some, by
        show jsCompletedFilter (fun c => c) (getAllTodos s) = _
        rw [hall, jsCompletedFilter_map_some]⟩

/-- Witness for the amended C7 at a concrete state and filter. -/
theorem C7_unknown_filter_witness :
    getVisibleTodos ⟨[("a", some ⟨"a", "milk", true⟩)], ["a"]⟩ "bogus" =
      Except.error (JsError.unknownFilter "bogus") :=
  (C7_unknown_filter ⟨[("a", some ⟨"a", "milk", true⟩)], ["a"]⟩).1 "bogus"
    (by decide) (by decide) (by decide)

theorem emptyTodos_inv : CollectionInv emptyTodos :=
  ⟨by simp [emptyTodos], by simp [emptyTodos, keys], by simp [emptyTodos, keys]⟩

theorem inv_after_setEntry_present (s : TodosState) (i : String) (v : Item)
    (hmem : (getValue s.byId i).isSome)
    (h1 : ∀ j ∈ s.allIds, (getValue s.byId j).isSome)
    (h2 : ∀ j ∈ keys s.byId, j ∈ s.allIds)
    (h3 : (keys s.byId).Nodup) :
    CollectionInv ⟨setEntry s.byId i (some v), s.allIds⟩ := by
  have hk : i ∈ keys s.byId := mem_keys_of_getValue_isSome _ _ hmem
  refine ⟨?_, ?_, ?_⟩ <;> dsimp only
  · intro j hj
    by_cases hij : j = i
    · subst hij
      rw [getValue_setEntry_same]
      rfl
    · rw [getValue_setEntry_other _ _ _ _ hij]
      exact h1 j hj
  · intro j hj
    rw [keys_setEntry_mem _ _ _ hk] at hj
    exact h2 j hj
  · rw [keys_setEntry_mem _ _ _ hk]
    exact h3

theorem todos_preserves_inv (s s2 : TodosState) (a : Action)
    (hs : CollectionInv s) (h : todos s a = Except.ok s2) : CollectionInv s2 := by
  obtain ⟨h1, h2, h3⟩ := hs
  cases a with
  | other =>
      have hh : s = s2 := by
        cases s
        simpa [todos, byId, allIds, Except.map] using h
      rw [← hh]
      exact ⟨h1, h2, h3⟩
  | add_todo i t =>
      have hh : (⟨setEntry s.byId i (some ⟨i, t, false⟩), s.allIds ++ [i]⟩ :
          TodosState) = s2 := by
        simpa [todos, byId, todo, allIds, Except.map] using h
      rw [← hh]
      refine ⟨?_, ?_, ?_⟩ <;> dsimp only
      · intro j hj
        by_cases hij : j = i
        · subst hij
          rw [getValue_setEntry_same]
          rfl
        · rw [getValue_setEntry_other _ _ _ _ hij]
          refine h1 j ?_
          rcases List.mem_append.mp hj with hjj | hjj
          · exact hjj
          · exact absurd (by simpa using hjj) hij
      · intro j hj
        by_cases hmem : i ∈ keys s.byId
        · rw [keys_setEntry_mem _ _ _ hmem] at hj
          exact List.mem_append.mpr (Or.inl (h2 j hj))
        · rw [keys_setEntry_not_mem _ _ _ hmem] at hj
          rcases List.mem_append.mp hj with hjj | hjj
          · exact List.mem_append.mpr (Or.inl (h2 j hjj))
          · exact List.mem_append.mpr (Or.inr hjj)
      · by_cases hmem : i ∈ keys s.byId
        · rw [keys_setEntry_mem _ _ _ hmem]
          exact h3
        · rw [keys_setEntry_not_mem _ _ _ hmem]
          simp [List.nodup_append, h3, List.disjoint_singleton, hmem]
  | toggle_todo i =>
      cases hv : getValue s.byId i with
      | none => simp [todos, byId, todo, hv, Except.map] at h
      | some item =>
          have hsome : (getValue s.byId i).isSome := by rw [hv]; rfl
          by_cases hid : item.id ≠ i
          · have hh : (⟨setEntry s.byId i (some item), s.allIds⟩ :
                TodosState) = s2 := by
              simpa [todos, byId, todo, hv, hid, allIds, Except.map] using h
            rw [← hh]
            exact inv_after_setEntry_present s i item hsome h1 h2 h3
          · have hh : (⟨setEntry s.byId i
                (some { item with completed := !item.completed }), s.allIds⟩ :
                TodosState) = s2 := by
              simpa [todos, byId, todo, hv, hid, allIds, Except.map] using h
            rw [← hh]
            exact inv_after_setEntry_present s i _ hsome h1 h2 h3

theorem runActions_preserves_inv (acts : List Action) :
    ∀ s s2, CollectionInv s → runActions s acts = Except.ok s2 →
      CollectionInv s2 := by
  induction acts with
  | nil =>
      intro s s2 hs h
      have hh : s = s2 := by simpa [runActions] using h
      rw [← hh]
      exact hs
  | cons a rest ih =>
      intro s s2 hs h
      simp only [runActions] at h
      cases ht : todos s a with
      | error e => rw [ht] at h; simp [Except.bind] at h
      | ok s1 =>
          rw [ht] at h
          simp only [Except.bind] at h
          exact ih s1 s2 (todos_preserves_inv s s1 a hs ht) h

/-- C2: in every state reachable from the empty collection by a
sequence of `ADD_TODO` and `TOGGLE_TODO` dispatches, every identifier
in `allIds` has exactly one corresponding `byId` entry (keys are
duplicate-free and defined), and every key of `byId` occurs in
`allIds`; both slices were updated by the same composed reducer step. -/
theorem C2_collection_invariant (acts : List Action) (s : TodosState)
    (hacts : ∀ a ∈ acts, a.isCollection = true)
    (h : runActions emptyTodos acts = Except.ok s) : CollectionInv s :=
  runActions_preserves_inv acts emptyTodos s emptyTodos_inv h

/-- Witness for C2 after a concrete add-then-toggle run. -/
theorem C2_collection_invariant_witness :
    CollectionInv ⟨[("a", some ⟨"a", "milk", true⟩)], ["a"]⟩ :=
  C2_collection_invariant [Action.add_todo "a" "milk", Action.toggle_todo "a"]
    ⟨[("a", some ⟨"a", "milk", true⟩)], ["a"]⟩ (by decide) rfl

theorem runActions_adds (adds : List (String × String)) :
    ∀ s : TodosState, ∃ s2,
      runActions s (adds.map (fun p => Action.add_todo p.1 p.2)) =
        Except.ok s2 ∧
      s2.allIds = s.allIds ++ adds.map Prod.fst ∧
      ((adds.map Prod.fst).Nodup →
        (∀ j ∈ adds.map Prod.fst, j ∉ keys s.byId) →
        keys s2.byId = keys s.byId ++ adds.map Prod.fst) := by
  induction adds with
  | nil => exact fun s => ⟨s, rfl, by simp, fun _ _ => by simp⟩
  | cons p rest ih =>
      intro s
      obtain ⟨s2, hrun, hall, hkeys⟩ :=
        ih ⟨setEntry s.byId p.1 (some ⟨p.1, p.2, false⟩), s.allIds ++ [p.1]⟩
      refine ⟨s2, ?_, ?_, ?_⟩
      · simp only [List.map_cons, runActions]
        have ht : todos s (Action.add_todo p.1 p.2) =
            Except.ok ⟨setEntry s.byId p.1 (some ⟨p.1, p.2, false⟩),
              s.allIds ++ [p.1]⟩ := by
          simp [todos, byId, todo, allIds, Except.map]
        rw [ht]
        simpa [Except.bind] using hrun
      · rw [hall]
        simp
      · intro hnd hdisj
        have hnd' : (p.1 :: rest.map Prod.fst).Nodup := by simpa using hnd
        have hids : (rest.map Prod.fst).Nodup := (List.nodup_cons.mp hnd').2
        have hp1 : p.1 ∉ rest.map Prod.fst := (List.nodup_cons.mp hnd').1
        have hpk : p.1 ∉ keys s.byId := hdisj p.1 (by simp)
        have hk1 : keys (setEntry s.byId p.1 (some ⟨p.1, p.2, false⟩)) =
            keys s.byId ++ [p.1] := keys_setEntry_not_mem _ _ _ hpk
        have hpre : ∀ j ∈ rest.map Prod.fst,
            j ∉ keys (setEntry s.byId p.1 (some ⟨p.1, p.2, false⟩)) := by
          intro j hj hmem
          rw [hk1] at hmem
          rcases List.mem_append.mp hmem with hh | hh
          · exact hdisj j (by simp [hj]) hh
          · have hjp : j = p.1 := by simpa using hh
            exact hp1 (hjp ▸ hj)
        have := hkeys hids hpre
        dsimp only at this
        rw [this, hk1]
        simp

/-- C4: dispatching a sequence of `ADD_TODO` actions with pairwise
distinct ids from the empty collection succeeds and yields a state
whose `allIds` lists exactly those ids in order (length equal to the
number of adds, no duplicates) and whose `byId` key set is exactly
those ids. -/
theorem C4_distinct_adds (adds : List (String × String))
    (h : (adds.map Prod.fst).Nodup) :
    ∃ s, runActions emptyTodos (adds.map (fun p => Action.add_todo p.1 p.2)) =
        Except.ok s ∧
      s.allIds = adds.map Prod.fst ∧
      s.allIds.length = adds.length ∧
      s.allIds.Nodup ∧
      keys s.byId = adds.map Prod.fst := by
  obtain ⟨s, hrun, hall, hkeys⟩ := runActions_adds adds emptyTodos
  have ha : s.allIds = adds.map Prod.fst := by simpa [emptyTodos] using hall
  have hk : keys s.byId = adds.map Prod.fst := by
    have hdisj : ∀ j ∈ adds.map Prod.fst, j ∉ keys emptyTodos.byId := by
      intro j hj
      simp [emptyTodos, keys]
    simpa [emptyTodos, keys] using hkeys h hdisj
  exact ⟨s, hrun, ha, by simp [ha], ha ▸ h, hk⟩

/-- Witness for C4 at a concrete two-element add sequence. -/
theorem C4_distinct_adds_witness :
    ∃ s, runActions emptyTodos
        (([("a", "milk"), ("b", "dog")] : List (String × String)).map
          (fun p => Action.add_todo p.1 p.2)) = Except.ok s ∧
      s.allIds =
        ([("a", "milk"), ("b", "dog")] : List (String × String)).map Prod.fst ∧
      s.allIds.length =
        ([("a", "milk"), ("b", "dog")] : List (String × String)).length ∧
      s.allIds.Nodup ∧
      keys s.byId =
        ([("a", "milk"), ("b", "dog")] : List (String × String)).map Prod.fst :=
  C4_distinct_adds [("a", "milk"), ("b", "dog")] (by decide)

end IdomaticRedux
